import Mathlib

/-!
Shallow embedding of the update-checking core of `cosmic-applet-arch` /
`arch-updates-rs`.

Rust strings are modelled as `List Char`; Rust `Result<T, E>` as `Except E T`;
fallible parsing returns `Option`.  Each definition is translated from the
corresponding Rust function named in its doc comment.
-/

namespace Spec2Proof

/-- Coerce a Lean string literal to the `List Char` representation used
throughout this development. -/
def str (s : String) : List Char := s.toList

/-! ### Generic string helpers (models of Rust `str` methods) -/

/-- Model of Rust `str::starts_with` on char lists. -/
def isPrefixOfL : List Char → List Char → Bool
  | [], _ => true
  | _ :: _, [] => false
  | a :: as, b :: bs => a = b && isPrefixOfL as bs

/-- Model of Rust `str::contains` (substring containment). -/
def containsL : List Char → List Char → Bool
  | needle, [] => isPrefixOfL needle []
  | needle, c :: rest => isPrefixOfL needle (c :: rest) || containsL needle rest

/-- Model of Rust `str::splitn(2, sep).  Splits at the first occurrence of the
(multi-char) separator, returning the text before and after it; `none` when the
separator does not occur. -/
def splitOnceL (sep : List Char) : List Char → Option (List Char × List Char)
  | [] => if isPrefixOfL sep [] then some ([], []) else none
  | c :: rest =>
    if isPrefixOfL sep (c :: rest) then some ([], List.drop sep.length (c :: rest))
    else (splitOnceL sep rest).map (fun p => (c :: p.1, p.2))

/-- Model of Rust `str::split_once(sep)` for a single-char separator. -/
def splitOnceC (sep : Char) : List Char → Option (List Char × List Char)
  | [] => none
  | c :: rest =>
    if c = sep then some ([], rest)
    else (splitOnceC sep rest).map (fun p => (c :: p.1, p.2))

/-- Model of Rust `str::rsplit_once(sep)`: split at the last occurrence. -/
def rsplitOnceC (sep : Char) (xs : List Char) : Option (List Char × List Char) :=
  match splitOnceC sep xs.reverse with
  | none => none
  | some (a, b) => some (b.reverse, a.reverse)

/-- Model of Rust `str::split(sep)` over a character predicate: the list of
fields between separator characters (an empty input yields one empty field,
as in Rust). -/
def splitAllP (p : Char → Bool) : List Char → List (List Char)
  | [] => [[]]
  | c :: rest =>
    if p c then [] :: splitAllP p rest
    else
      match splitAllP p rest with
      | [] => [[c]]
      | s :: ss => (c :: s) :: ss

/-- Model of Rust `str::to_lowercase` (sufficient for ASCII package names). -/
def toLowerL (xs : List Char) : List Char := xs.map Char.toLower

/-! ### C1: the history-preserving result state machine
(`cosmic-applet-arch/src/app/subscription/core.rs`) -/

/-- `BasicResultWithHistory<T>` from `subscription/core.rs`. -/
inductive BasicResultWithHistory (T : Type) where
  | Ok (value : T)
  | Error
  | ErrorWithHistory (last_value : T)
deriving DecidableEq

/-- `BasicResultWithHistory::replace_with_result_preserving_history` from
`subscription/core.rs` (the `eprintln!` side effect carries no state and is
dropped). -/
def replace_with_result_preserving_history {T E : Type}
    (self : BasicResultWithHistory T) (value : Except E T) :
    BasicResultWithHistory T :=
  match self with
  | .Ok last_value =>
    match value with
    | .ok value => .Ok value
    | .error _ => .ErrorWithHistory last_value
  | .Error =>
    match value with
    | .ok value => .Ok value
    | .error _ => .Error
  | .ErrorWithHistory last_value =>
    match value with
    | .ok value => .Ok value
    | .error _ => .ErrorWithHistory last_value

/-- `BasicResultWithHistory::replace_with_option_result_preserving_history`
from `subscription/core.rs`. -/
def replace_with_option_result_preserving_history {T E : Type}
    (self : BasicResultWithHistory T) (value : Option (Except E T)) :
    BasicResultWithHistory T :=
  match value with
  | none => self
  | some value =>
    match self with
    | .Ok last_value =>
      match value with
      | .ok value => .Ok value
      | .error _ => .ErrorWithHistory last_value
    | .Error =>
      match value with
      | .ok value => .Ok value
      | .error _ => .Error
    | .ErrorWithHistory last_value =>
      match value with
      | .ok value => .Ok value
      | .error _ => .ErrorWithHistory last_value

/-- The good value currently retained by a `BasicResultWithHistory` state,
if any (`Ok` and `ErrorWithHistory` retain one). -/
def heldValue {T : Type} : BasicResultWithHistory T → Option T
  | .Ok value => some value
  | .Error => none
  | .ErrorWithHistory last_value => some last_value

/-! ### arch-updates-rs data model (`arch-updates-rs/src/lib.rs`) -/

/-- `Package` from `lib.rs` / `get_updates.rs`. -/
structure Package where
  pkgname : List Char
  pkgver : List Char
  pkgrel : List Char
deriving DecidableEq

/-- `Update` from `lib.rs` (field-identical to `ParsedUpdate` in
`get_updates.rs` and to the `AurUpdate` record). -/
structure Update where
  pkgname : List Char
  pkgver_cur : List Char
  pkgrel_cur : List Char
  pkgver_new : List Char
  pkgrel_new : List Char
deriving DecidableEq

/-- `DevelUpdate` from `lib.rs`. -/
structure DevelUpdate where
  pkgname : List Char
  pkgver_cur : List Char
  pkgrel_cur : List Char
  ref_id_new : List Char
deriving DecidableEq

/-- `PackageUrl` from `get_updates.rs`. -/
structure PackageUrl where
  remote : List Char
  protocol : List Char
  branch : Option (List Char)
deriving DecidableEq

/-- `DEVEL_SUFFIXES` from `lib.rs`: `["-git"]`. -/
def DEVEL_SUFFIXES : List (List Char) := [str "-git"]

/-! ### Parsers (`arch-updates-rs/src/get_updates.rs`) -/

/-- `parse_ver_and_rel` from `get_updates.rs`: split a combined
`pkgver-pkgrel` at the last hyphen (`rsplit_once`); parse error is `none`. -/
def parse_ver_and_rel (version : List Char) : Option (List Char × List Char) :=
  rsplitOnceC '-' version

/-- `parse_pacman_qm` from `get_updates.rs`: parse one line of `pacman -Qm`
output (`split_once(' ')`, then `parse_ver_and_rel`). -/
def parse_pacman_qm (line : List Char) : Option Package :=
  match splitOnceC ' ' line with
  | none => none
  | some (pkgname, rest) =>
    (parse_ver_and_rel rest).map fun p => ⟨pkgname, p.1, p.2⟩

/-- `parse_update` from `get_updates.rs`: parse one `checkupdates` line.  The
Rust code splits on `' '` and consumes fields with an iterator (`next`, `next`,
`nth(1)`), i.e. fields 0, 1 and 3. -/
def parse_update (value : List Char) : Option Update := do
  let parts := splitAllP (fun c => c = ' ') value
  let pkgname ← parts[0]?
  let cur ← parts[1]?
  let (pkgver_cur, pkgrel_cur) ← parse_ver_and_rel cur
  let new ← parts[3]?
  let (pkgver_new, pkgrel_new) ← parse_ver_and_rel new
  pure ⟨pkgname, pkgver_cur, pkgrel_cur, pkgver_new, pkgrel_new⟩

/-- The step of `parse_url` (from `get_updates.rs`) that strips an optional
`filename::` prefix: `source.splitn(2, "::").last().unwrap()`. -/
def stripName (source : List Char) : List Char :=
  match splitOnceL (str "::") source with
  | some (_, rest) => rest
  | none => source

/-- The step of `parse_url` that strips a `?query` suffix:
`x.split_once('?').map_or(x, |p| p.0)`. -/
def stripQuery (xs : List Char) : List Char :=
  match splitOnceC '?' xs with
  | some (a, _) => a
  | none => xs

/-- The step of `parse_url` that extracts the protocol:
`proto0.rsplit('+').next().unwrap()` (text after the last `+`). -/
def afterLastPlus (xs : List Char) : List Char :=
  (xs.reverse.takeWhile (fun c => c ≠ '+')).reverse

/-- `parse_url` from `get_updates.rs` (the VCS source-URL parser). -/
def parse_url (source : List Char) : Option PackageUrl :=
  let url := stripName source
  if isPrefixOfL (str "git") url && containsL (str "://") url then
    match splitOnceL (str "://") url with
    | none => none
    | some (proto0, rest) =>
      let protocol := afterLastPlus proto0
      match splitOnceC '#' rest with
      | none => some ⟨protocol ++ str "://" ++ stripQuery rest, protocol, none⟩
      | some (remote0, fragment0) =>
        let remote := protocol ++ str "://" ++ stripQuery remote0
        let fragment := stripQuery fragment0
        match splitOnceC '=' fragment with
        | none =>
          if fragment = str "commit" ∨ fragment = str "tag" then none
          else some ⟨remote, protocol, none⟩
        | some (ftype, fval) =>
          if ftype = str "commit" ∨ ftype = str "tag" then none
          else if ftype = str "branch" then some ⟨remote, protocol, some fval⟩
          else some ⟨remote, protocol, none⟩
  else none

/-- The fragment type (text of the `#fragment` before the first `=`, after
stripping any `?query`) that `parse_url` inspects, extracted by the same
pipeline; `none` when the input never reaches the fragment stage. -/
def frag_type (source : List Char) : Option (List Char) :=
  match splitOnceL (str "://") (stripName source) with
  | none => none
  | some (_, rest) =>
    match splitOnceC '#' rest with
    | none => none
    | some (_, fragment0) =>
      let fragment := stripQuery fragment0
      match splitOnceC '=' fragment with
      | none => some fragment
      | some (ftype, _) => some ftype

/-! ### Version comparison and due-ness (`get_updates.rs` / `lib.rs`) -/

/-- Model of the external `version_compare` crate's `Version::from`, per spec
§4.1: a version string splits on separator characters into segments; every
segment must be a nonempty digit run (numeric segment-wise comparison as used
for pkgver strings such as `1:1.6.0`), otherwise parsing fails — e.g. a raw
commit hash fails to parse. -/
def parseVersion (xs : List Char) : Option (List Nat) :=
  let segs := splitAllP (fun c => c = '.' || c = ':' || c = '-' ||
    c = '_' || c = '+') xs
  if segs.all (fun s => !s.isEmpty && s.all (fun c => c.isDigit)) then
    some (segs.map (fun s => s.foldl (fun n c => n * 10 + (c.toNat - 48)) 0))
  else none

/-- Strict segment-wise numeric order on parsed versions (model of
`version_compare`'s `<` on `Version`). -/
def verLt : List Nat → List Nat → Bool
  | [], [] => false
  | [], _ :: _ => true
  | _ :: _, [] => false
  | a :: as, b :: bs => if a < b then true else if b < a then false else verLt as bs

/-- Lexicographic char-wise order on strings, the model of Rust `String`
comparison (used for `pkgrel` comparison in `aur_update_due`). -/
def strLt : List Char → List Char → Bool
  | [], [] => false
  | [], _ :: _ => true
  | _ :: _, [] => false
  | a :: as, b :: bs => if a < b then true else if b < a then false else strLt as bs

/-- `aur_update_due` from `get_updates.rs`: due iff both versions parse and
the new version is greater, or the versions are equal and the new release
string is greater; a parse failure on either version yields `false`. -/
def aur_update_due (package : Update) : Bool :=
  match parseVersion package.pkgver_new with
  | none => false
  | some pkgver_new =>
    match parseVersion package.pkgver_cur with
    | none => false
    | some pkgver_old =>
      verLt pkgver_old pkgver_new ||
        (decide (pkgver_new = pkgver_old) && strLt package.pkgrel_cur package.pkgrel_new)

/-- `devel_update_due` from `get_updates.rs`:
`!update.pkgver_cur.contains(&update.ref_id_new)`. -/
def devel_update_due (update : DevelUpdate) : Bool :=
  !containsL update.ref_id_new update.pkgver_cur

/-! ### Foreign/devel package enumeration (`get_updates.rs`) -/

/-- The line filter inside `get_aur_packages` from `get_updates.rs`: keep the
`pacman -Qm` lines in which no ignored-package name occurs as a substring. -/
def kept_lines (ignored_packages lines : List (List Char)) : List (List Char) :=
  lines.filter fun line =>
    !(ignored_packages.any fun ignored_package => containsL ignored_package line)

/-- The `.map(parse_pacman_qm).collect::<Result<Vec<_>>>()` tail of
`get_aur_packages`: parse every kept line, failing the whole call on the first
parse error. -/
def parse_qm_lines : List (List Char) → Option (List Package)
  | [] => some []
  | l :: ls =>
    match parse_pacman_qm l with
    | none => none
    | some p => (parse_qm_lines ls).map (p :: ·)

/-- `get_aur_packages` from `get_updates.rs`, with its two effectful inputs
(the `pacman-conf IgnorePkg` names and the `pacman -Qm` lines) passed in. -/
def get_aur_packages (ignored_packages lines : List (List Char)) :
    Option (List Package) :=
  parse_qm_lines (kept_lines ignored_packages lines)

/-- `get_devel_packages` from `get_updates.rs`, with the foreign package list
passed in: keep the packages whose lowercased name contains one of
`DEVEL_SUFFIXES`. -/
def get_devel_packages (aur_packages : List Package) : List Package :=
  aur_packages.filter fun package =>
    DEVEL_SUFFIXES.any fun suffix => containsL suffix (toLowerL package.pkgname)

/-! ### AUR online/offline checks (`arch-updates-rs/src/lib.rs`) -/

/-- One step of the cache construction inside `check_aur_updates_online`
(`lib.rs`): for an AUR info record `(name, combined version)`, find the first
matching local package (skip the record when there is none — the `?` in the
`filter_map`), then split the combined version with
`parse_ver_and_rel(..).unwrap()`; the `.unwrap()` panic is modelled as the
outer `none`. -/
def online_step (old : List Package) (new : List Char × List Char) :
    Option (Option Update) :=
  match List.find? (fun o => o.pkgname = new.1) old with
  | none => some none
  | some matching_old =>
    match parse_ver_and_rel new.2 with
    | none => none
    | some (pkgver_new, pkgrel_new) =>
      some (some ⟨matching_old.pkgname, matching_old.pkgver, matching_old.pkgrel,
        pkgver_new, pkgrel_new⟩)

/-- The cache list built by `check_aur_updates_online` over the AUR info
records, in order; `none` models a `.unwrap()` panic on an unparsable combined
version. -/
def online_cache (old : List Package) : List (List Char × List Char) →
    Option (List Update)
  | [] => some []
  | new :: rest =>
    match online_step old new with
    | none => none
    | some none => online_cache old rest
    | some (some u) => (online_cache old rest).map (u :: ·)

/-- `check_aur_updates_online` from `lib.rs`, with its effectful inputs passed
in: `old` is the local foreign package list (`get_aur_packages`), `info` the
AUR web API records as `(name, combined version)` pairs.  Returns
`(due updates, cache)`. -/
def check_aur_updates_online (old : List Package)
    (info : List (List Char × List Char)) :
    Option (List Update × List Update) :=
  (online_cache old info).map fun cache =>
    (cache.filter aur_update_due, cache)

/-- The `Update` that `check_aur_updates_offline` (`lib.rs`) constructs for
one local package: new version/release from the first matching cache entry,
defaulting to the package's own version/release when there is none. -/
def offline_update (cache : List Update) (old_package : Package) : Update :=
  match List.find? (fun c => c.pkgname = old_package.pkgname) cache with
  | some cache_package =>
    ⟨old_package.pkgname, old_package.pkgver, old_package.pkgrel,
      cache_package.pkgver_new, cache_package.pkgrel_new⟩
  | none =>
    ⟨old_package.pkgname, old_package.pkgver, old_package.pkgrel,
      old_package.pkgver, old_package.pkgrel⟩

/-- `check_aur_updates_offline` from `lib.rs`, with the local foreign package
list passed in. -/
def check_aur_updates_offline (old : List Package) (cache : List Update) :
    List Update :=
  (old.map (offline_update cache)).filter aur_update_due

/-! ### Devel online check (fan-out over source URLs) -/

/-- The `DevelUpdate` record built for one local devel package and one head
identifier obtained from one of its parseable source URLs. -/
def mkDevelUpdate (pkg : Package) (ref_id_new : List Char) : DevelUpdate :=
  ⟨pkg.pkgname, pkg.pkgver, pkg.pkgrel, ref_id_new⟩

/-- Modelled from the spec: `check_devel_updates_online` in `lib.rs` does not
build (the function body contains a `compile_error!("Remove this unwrap!")`
marker), so its pure fan-out core is modelled from spec §4.6: each devel
package contributes one `DevelUpdate` per parseable source URL (here `pkgs`
pairs each package with the head identifiers of its parseable URLs), the
returned pair is (records that are due, all records). -/
def check_devel_updates_online_model
    (pkgs : List (Package × List (List Char))) :
    List DevelUpdate × List DevelUpdate :=
  let devel_updates := pkgs.flatMap fun pr => pr.2.map (mkDevelUpdate pr.1)
  (devel_updates.filter devel_update_due, devel_updates)

/-! ### Polling scheduler counter (`cosmic-applet-arch/src/app/subscription/updates_worker.rs`) -/

/-- `CheckType` from `subscription/core.rs`. -/
inductive CheckType where
  | Online
  | Offline
deriving DecidableEq

/-- The check type chosen at a regular tick in `raw_updates_worker`
(`updates_worker.rs`): `Online` when the counter is `0`, else `Offline`. -/
def tick_check_type (counter : Nat) : CheckType :=
  match counter with
  | 0 => CheckType.Online
  | _ => CheckType.Offline

/-- The counter update performed by a regular tick in `raw_updates_worker`:
`counter += 1; if counter > online_check_period { counter = 0 }`. -/
def tick_next_counter (online_check_period counter : Nat) : Nat :=
  let counter := counter + 1
  if counter > online_check_period then 0 else counter

/-- The two inputs `raw_updates_worker`'s `select!` reacts to: a regular
interval tick, or a serviced (coalesced) force-refresh notification. -/
inductive WorkerEvent where
  | Tick
  | Refresh
deriving DecidableEq

/-- The effect of one serviced event on `raw_updates_worker`'s cycle counter:
a tick advances it as above; a force-refresh sets it to `1`. -/
def worker_step (online_check_period counter : Nat) : WorkerEvent → Nat
  | .Tick => tick_next_counter online_check_period counter
  | .Refresh => 1

/-- The cycle counter after a sequence of serviced events, starting from the
initial `counter = 0` of `raw_updates_worker`. -/
def counter_after (online_check_period : Nat) (events : List WorkerEvent) : Nat :=
  events.foldl (worker_step online_check_period) 0

/-- The check type performed by the regular tick that follows `n` prior
regular ticks in a fresh run of `raw_updates_worker` (0-indexed: `n = 0` is
the first tick). -/
def check_type_at (online_check_period n : Nat) : CheckType :=
  tick_check_type (counter_after online_check_period (List.replicate n .Tick))

end Spec2Proof

namespace Spec2Proof

/-- C1: the history-preserving result state machine: a success always yields
`Ok` of the new value; a failure ages `Ok v` into `ErrorWithHistory v` and
leaves `Error` / `ErrorWithHistory` unchanged; an absent result (`none`) is a
no-op; consequently a failure never discards a previously-seen good value. -/
theorem C1_history_state_machine {T E : Type} :
    (∀ (st : BasicResultWithHistory T) (v : T),
      replace_with_result_preserving_history st (Except.ok (ε := E) v) =
        .Ok v) ∧
    (∀ (v : T) (e : E),
      replace_with_result_preserving_history (.Ok v) (Except.error e) =
        .ErrorWithHistory v) ∧
    (∀ (e : E),
      replace_with_result_preserving_history (T := T) .Error (Except.error e) =
        .Error) ∧
    (∀ (v : T) (e : E),
      replace_with_result_preserving_history (.ErrorWithHistory v)
        (Except.error e) = .ErrorWithHistory v) ∧
    (∀ (st : BasicResultWithHistory T),
      replace_with_option_result_preserving_history (E := E) st none = st) ∧
    (∀ (st : BasicResultWithHistory T) (r : Except E T),
      replace_with_option_result_preserving_history st (some r) =
        replace_with_result_preserving_history st r) ∧
    (∀ (st : BasicResultWithHistory T) (e : E),
      heldValue (replace_with_result_preserving_history st (Except.error e)) =
        heldValue st) := by
  refine ⟨fun st v => ?_, fun v e => rfl, fun e => rfl, fun v e => rfl,
    fun st => rfl, fun st r => ?_, fun st e => ?_⟩
  · cases st <;> rfl
  · cases st <;> cases r <;> rfl
  · cases st <;> rfl

/-- C7: the pending-update line parser and the foreign-package line parser
produce the expected fields on the two reference inputs. -/
theorem C7_line_parsers :
    parse_update (str "libadwaita 1:1.6.0-1 -> 1:1.6.1-2") =
      some ⟨str "libadwaita", str "1:1.6.0", str "1", str "1:1.6.1", str "2"⟩ ∧
    parse_pacman_qm (str "winetricks-git 20240105.r47.g72b934e1-2") =
      some ⟨str "winetricks-git", str "20240105.r47.g72b934e1", str "2"⟩ := by
  decide

/-- C6: `parse_url` extracts remote/protocol/branch on the reference input;
it returns no result on any input whose fragment type is `commit` or `tag`,
and on any input that (after stripping an optional `filename::` prefix) does
not start with `git` or does not contain `://`. -/
theorem C6_parse_url :
    (parse_url (str "pkg::git+https://host/path.git#branch=main") =
      some ⟨str "https://host/path.git", str "https", some (str "main")⟩) ∧
    (∀ source : List Char,
      frag_type source = some (str "commit") ∨ frag_type source = some (str "tag") →
      parse_url source = none) ∧
    (∀ source : List Char,
      isPrefixOfL (str "git") (stripName source) = false ∨
        containsL (str "://") (stripName source) = false →
      parse_url source = none) := by
  refine ⟨by decide, fun source h => ?_, fun source h => ?_⟩
  · by_cases hc : (isPrefixOfL (str "git") (stripName source) &&
        containsL (str "://") (stripName source)) = true
    · cases e1 : splitOnceL (str "://") (stripName source) with
      | none => simp [frag_type, e1] at h
      | some p1 =>
        obtain ⟨proto0, rest⟩ := p1
        cases e2 : splitOnceC '#' rest with
        | none => simp [frag_type, e1, e2] at h
        | some p2 =>
          obtain ⟨remote0, fragment0⟩ := p2
          cases e3 : splitOnceC '=' (stripQuery fragment0) with
          | none =>
            simp only [frag_type, e1, e2, e3, Option.some.injEq] at h
            simp [parse_url, hc, e1, e2, e3, h]
          | some p3 =>
            obtain ⟨ftype, fval⟩ := p3
            simp only [frag_type, e1, e2, e3, Option.some.injEq] at h
            simp [parse_url, hc, e1, e2, e3, h]
    · simp [parse_url, hc]
  · have hc : (isPrefixOfL (str "git") (stripName source) &&
        containsL (str "://") (stripName source)) = false := by
      rcases h with h | h <;> simp [h]
    simp [parse_url, hc]

/-- C6 witness: the hypothesized prongs of `C6_parse_url` applied at concrete
inputs (a `tag`-pinned source, and a non-git source). -/
theorem C6_parse_url_witness :
    parse_url (str "pkg::git+https://host/path.git#tag=v1") = none ∧
    parse_url (str "pkg::hg+https://host/path") = none :=
  ⟨C6_parse_url.2.1 (str "pkg::git+https://host/path.git#tag=v1")
      (Or.inr (by decide)),
    C6_parse_url.2.2 (str "pkg::hg+https://host/path") (Or.inl (by decide))⟩

/-- Auxiliary: the scheduler counter after `n` regular ticks from counter `c`
(for `c` within the cycle) is `(c + n) % (online_check_period + 1)`. -/
theorem counter_ticks_mod (k : Nat) :
    ∀ (n c : Nat), c ≤ k →
      List.foldl (worker_step k) c (List.replicate n .Tick) = (c + n) % (k + 1) := by
  intro n
  induction n with
  | zero =>
    intro c hc
    simp [Nat.mod_eq_of_lt (Nat.lt_succ_of_le hc)]
  | succ n ih =>
    intro c hc
    rw [List.replicate_succ, List.foldl_cons]
    have hstep : worker_step k c .Tick = if c + 1 > k then 0 else c + 1 := rfl
    by_cases hk : c + 1 > k
    · have hck : c = k := Nat.le_antisymm hc (Nat.lt_succ_iff.mp hk)
      rw [hstep, if_pos hk, ih 0 (Nat.zero_le k)]
      subst hck
      have : c + (n + 1) = n + (c + 1) := by omega
      rw [this, Nat.add_mod_right, Nat.zero_add]
    · have hc1 : c + 1 ≤ k := Nat.not_lt.mp hk
      rw [hstep, if_neg hk, ih (c + 1) hc1]
      have : c + 1 + n = c + (n + 1) := by omega
      rw [this]

/-- C2 counterexample: with `online_check_period = 2`, a fresh run has Online
ticks at indices 0 and 3 — three ticks apart, not two, so "exactly every
2nd regular tick is Online" fails at a concrete tick under either phase
convention; and the regular tick following a force-refresh is Offline, not
Online. -/
theorem C2_counterexample :
    check_type_at 2 0 = CheckType.Online ∧
    check_type_at 2 1 = CheckType.Offline ∧
    check_type_at 2 2 = CheckType.Offline ∧
    check_type_at 2 3 = CheckType.Online ∧
    tick_check_type (counter_after 2 [WorkerEvent.Refresh]) = CheckType.Offline := by
  decide

/-- C2 (amended): with `online_check_period = k`, a regular tick in a fresh
run is Online exactly when its 0-indexed position is a multiple of `k + 1`
(so Online checks are `k + 1` ticks apart, not `k`); and after a serviced
force-refresh the counter is `1`, so the next regular tick is Offline — the
out-of-cycle Online pass happens at refresh time itself. -/
theorem C2_scheduler_amended (k n : Nat) (events : List WorkerEvent) :
    (check_type_at k n = CheckType.Online ↔ n % (k + 1) = 0) ∧
    tick_check_type (counter_after k (events ++ [WorkerEvent.Refresh])) =
      CheckType.Offline := by
  constructor
  · rw [check_type_at, counter_after, counter_ticks_mod k n 0 (Nat.zero_le k),
      Nat.zero_add]
    cases h : n % (k + 1) with
    | zero => simp [tick_check_type]
    | succ m => simp [tick_check_type, h]
  · rw [counter_after, List.foldl_append]
    rfl

/-- C8 counterexample: a foreign package named `a-gitx` is classified as a
devel package by `get_devel_packages`, although its name does not end with
the suffix `-git` — classification is by substring containment, not by
suffix. -/
theorem C8_counterexample :
    get_devel_packages [⟨str "a-gitx", str "1", str "1"⟩] =
      [⟨str "a-gitx", str "1", str "1"⟩] ∧
    List.isSuffixOf (str "-git") (str "a-gitx") = false := by
  decide

/-- C8 (amended): a package is classified as devel iff it is a foreign (AUR)
package whose lowercased name CONTAINS one of the fixed devel suffixes (the
suffix list being exactly `["-git"]`) as a substring. -/
theorem C8_devel_classification_amended (aur_packages : List Package)
    (package : Package) :
    package ∈ get_devel_packages aur_packages ↔
      package ∈ aur_packages ∧
        (DEVEL_SUFFIXES.any fun suffix =>
          containsL suffix (toLowerL package.pkgname)) = true := by
  simp [get_devel_packages, List.mem_filter]

/-- C10: for every ignored-package name `s` and every `pacman -Qm` line that
contains `s` anywhere as a substring, the foreign-package enumeration
excludes that line. -/
theorem C10_ignored_substring (ignored_packages lines : List (List Char))
    (s line : List Char) (hs : s ∈ ignored_packages)
    (hline : containsL s line = true) :
    line ∉ kept_lines ignored_packages lines := by
  intro hmem
  rw [kept_lines, List.mem_filter] at hmem
  have h2 := hmem.2
  simp only [Bool.not_eq_true', List.any_eq_false] at h2
  exact absurd hline (by simpa using h2 s hs)

/-- C10 witness: ignoring `foo` excludes the line of the differently-named
package `barfoo`, whose line contains `foo` as a substring. -/
theorem C10_ignored_substring_witness :
    str "barfoo 1-1" ∉ kept_lines [str "foo"] [str "barfoo 1-1"] :=
  C10_ignored_substring [str "foo"] [str "barfoo 1-1"] (str "foo")
    (str "barfoo 1-1") (by decide) (by decide)

/-- C4: for an AUR update record, when both version strings parse, due-ness
holds iff the new version is strictly greater segment-wise, or the versions
are equal and the new release string is strictly greater; when either version
fails to parse, due-ness is `false` (and `aur_update_due` is a total function,
so it never raises an error). -/
theorem C4_aur_update_due (package : Update) :
    (∀ vn vc : List Nat,
      parseVersion package.pkgver_new = some vn →
      parseVersion package.pkgver_cur = some vc →
      (aur_update_due package = true ↔
        (verLt vc vn = true ∨
          (vn = vc ∧ strLt package.pkgrel_cur package.pkgrel_new = true)))) ∧
    ((parseVersion package.pkgver_new = none ∨
        parseVersion package.pkgver_cur = none) →
      aur_update_due package = false) := by
  constructor
  · intro vn vc h1 h2
    simp [aur_update_due, h1, h2]
  · intro h
    rcases h with h | h
    · simp [aur_update_due, h]
    · cases e : parseVersion package.pkgver_new <;> simp [aur_update_due, e, h]

/-- C4 witness: `1.1-1` is due over `1.0-1` because `[1,1]` is segment-wise
greater than `[1,0]`. -/
theorem C4_aur_update_due_witness :
    aur_update_due ⟨str "a", str "1.0", str "1", str "1.1", str "1"⟩ = true :=
  ((C4_aur_update_due ⟨str "a", str "1.0", str "1", str "1.1", str "1"⟩).1
    [1, 1] [1, 0] (by decide) (by decide)).mpr (Or.inl (by decide))

/-- C5: a devel record is due iff the locally-recorded version does not
contain the truncated hash as a substring; in the online fan-out every
parseable source URL of a package yields its own record in the cache, and if
ANY of a package's records is a non-match the package is reported due (the
over-reporting heuristic). -/
theorem C5_devel_due_any (pkgs : List (Package × List (List Char)))
    (pkg : Package) (refs : List (List Char)) (h : (pkg, refs) ∈ pkgs) :
    (∀ u : DevelUpdate,
      devel_update_due u = true ↔ containsL u.ref_id_new u.pkgver_cur = false) ∧
    (∀ r ∈ refs, mkDevelUpdate pkg r ∈ (check_devel_updates_online_model pkgs).2) ∧
    (∀ r ∈ refs, devel_update_due (mkDevelUpdate pkg r) = true →
      ∃ u ∈ (check_devel_updates_online_model pkgs).1, u.pkgname = pkg.pkgname) := by
  refine ⟨fun u => by simp [devel_update_due], fun r hr => ?_, fun r hr hdue => ?_⟩
  · simp only [check_devel_updates_online_model, List.mem_flatMap]
    exact ⟨(pkg, refs), h, List.mem_map_of_mem _ hr⟩
  · refine ⟨mkDevelUpdate pkg r, ?_, rfl⟩
    simp only [check_devel_updates_online_model, List.mem_filter, List.mem_flatMap]
    exact ⟨⟨(pkg, refs), h, List.mem_map_of_mem _ hr⟩, hdue⟩

/-- C5 witness: with one devel package whose single parseable URL yields head
`abc` and whose local version does not contain `abc`, the record is in the
cache and the package is reported due. -/
theorem C5_devel_due_any_witness :
    mkDevelUpdate ⟨str "x-git", str "1", str "1"⟩ (str "abc") ∈
      (check_devel_updates_online_model
        [(⟨str "x-git", str "1", str "1"⟩, [str "abc"])]).2 :=
  (C5_devel_due_any [(⟨str "x-git", str "1", str "1"⟩, [str "abc"])]
    ⟨str "x-git", str "1", str "1"⟩ [str "abc"] (by decide)).2.1
    (str "abc") (by decide)

/-- Auxiliary: `verLt` is irreflexive. -/
theorem verLt_irrefl (v : List Nat) : verLt v v = false := by
  induction v with
  | nil => rfl
  | cons a as ih => simp [verLt, ih]

/-- Auxiliary: `strLt` is irreflexive. -/
theorem strLt_irrefl (s : List Char) : strLt s s = false := by
  induction s with
  | nil => rfl
  | cons a as ih => simp [strLt, ih]

/-- Auxiliary: an update whose new version and release equal its current ones
is never due. -/
theorem aur_update_due_self_false (u : Update)
    (h1 : u.pkgver_new = u.pkgver_cur) (h2 : u.pkgrel_new = u.pkgrel_cur) :
    aur_update_due u = false := by
  rw [aur_update_due, h1, h2]
  cases e : parseVersion u.pkgver_cur <;>
    simp [e, verLt_irrefl, strLt_irrefl]

/-- Auxiliary: every cache entry built by `check_aur_updates_online` records
the name, version and release of the first local package with its name. -/
theorem online_cache_mem {old : List Package} :
    ∀ {info : List (List Char × List Char)} {cache : List Update},
      online_cache old info = some cache → ∀ {u : Update}, u ∈ cache →
      ∃ m : Package,
        List.find? (fun o => o.pkgname = u.pkgname) old = some m ∧
        m.pkgname = u.pkgname ∧ m.pkgver = u.pkgver_cur ∧
        m.pkgrel = u.pkgrel_cur := by
  intro info
  induction info with
  | nil =>
    intro cache h u hu
    simp only [online_cache, Option.some.injEq] at h
    subst h
    simp at hu
  | cons new rest ih =>
    intro cache h u hu
    rw [online_cache] at h
    cases e : online_step old new with
    | none => rw [e] at h; exact absurd h (by simp)
    | some o =>
      cases o with
      | none =>
        rw [e] at h
        exact ih h hu
      | some u0 =>
        rw [e] at h
        rw [Option.map_eq_some'] at h
        obtain ⟨c0, hc0, hcache⟩ := h
        subst hcache
        rcases List.mem_cons.mp hu with hu0 | huc0
        · subst hu0
          rw [online_step] at e
          cases f : List.find? (fun o => o.pkgname = new.1) old with
          | none => rw [f] at e; exact absurd e (by simp)
          | some m =>
            rw [f] at e
            cases g : parse_ver_and_rel new.2 with
            | none => rw [g] at e; exact absurd e (by simp)
            | some vr =>
              rw [g] at e
              simp only [Option.some.injEq] at e
              have hm1 : m.pkgname = new.1 := by
                have := List.find?_some f
                simpa using this
              refine ⟨m, ?_, ?_⟩
              · rw [← e]
                simp only
                rw [hm1]
                exact f
              · rw [← e]
                simp
        · exact ih hc0 huc0

/-- C3: given a duplicate-free local foreign package list, any cache produced
by a successful online AUR check over it makes the offline due-set a subset of
the online due-set; and a local package with no matching cache entry has its
cached new version defaulted to its local version and is never reported due. -/
theorem C3_offline_subset (old : List Package)
    (info : List (List Char × List Char)) (updates cache : List Update)
    (hnodup : (old.map Package.pkgname).Nodup)
    (honline : check_aur_updates_online old info = some (updates, cache)) :
    check_aur_updates_offline old cache ⊆ updates ∧
    ∀ old_package : Package,
      List.find? (fun c => c.pkgname = old_package.pkgname) cache = none →
      offline_update cache old_package =
        ⟨old_package.pkgname, old_package.pkgver, old_package.pkgrel,
          old_package.pkgver, old_package.pkgrel⟩ ∧
      aur_update_due (offline_update cache old_package) = false := by
  rw [check_aur_updates_online, Option.map_eq_some'] at honline
  obtain ⟨cache0, hcache0, heq⟩ := honline
  have hupd : updates = cache0.filter aur_update_due := by
    have := congrArg Prod.fst heq; simpa using this.symm
  have hcache : cache0 = cache := by
    have := congrArg Prod.snd heq; simpa using this
  rw [hcache] at hcache0 hupd
  constructor
  · intro u hu
    rw [check_aur_updates_offline, List.mem_filter] at hu
    obtain ⟨humem, hudue⟩ := hu
    rw [List.mem_map] at humem
    obtain ⟨op, hop, huop⟩ := humem
    cases f : List.find? (fun c => c.pkgname = op.pkgname) cache with
    | none =>
      exfalso
      rw [← huop, offline_update, f] at hudue
      rw [aur_update_due_self_false _ rfl rfl] at hudue
      exact Bool.false_ne_true hudue
    | some e =>
      have hename : e.pkgname = op.pkgname := by
        have := List.find?_some f
        simpa using this
      have hecache : e ∈ cache := List.mem_of_find?_eq_some f
      obtain ⟨m, hfind, hm1, hm2, hm3⟩ := online_cache_mem hcache0 hecache
      have hmold : m ∈ old := List.mem_of_find?_eq_some hfind
      have hop_m : op = m := by
        refine List.inj_on_of_nodup_map hnodup hop hmold ?_
        rw [hm1, hename]
      have hue : u = e := by
        rw [← huop, offline_update, f, hop_m]
        calc (⟨m.pkgname, m.pkgver, m.pkgrel, e.pkgver_new, e.pkgrel_new⟩ : Update)
            = ⟨e.pkgname, e.pkgver_cur, e.pkgrel_cur, e.pkgver_new, e.pkgrel_new⟩ := by
              rw [hm1, hm2, hm3]
          _ = e := rfl
      rw [hupd, List.mem_filter]
      exact ⟨hue ▸ hecache, hudue⟩
  · intro old_package hnone
    have hdef : offline_update cache old_package =
        ⟨old_package.pkgname, old_package.pkgver, old_package.pkgrel,
          old_package.pkgver, old_package.pkgrel⟩ := by
      rw [offline_update, hnone]
    exact ⟨hdef, by rw [hdef]; exact aur_update_due_self_false _ rfl rfl⟩

/-- C3 witness: a one-package system with a parseable online result — the
offline due-set computed from the returned cache is a subset of the online
due-set. -/
theorem C3_offline_subset_witness :
    check_aur_updates_offline [⟨str "foo", str "1.0", str "1"⟩]
        [⟨str "foo", str "1.0", str "1", str "1.1", str "1"⟩] ⊆
      [⟨str "foo", str "1.0", str "1", str "1.1", str "1"⟩] :=
  (C3_offline_subset [⟨str "foo", str "1.0", str "1"⟩]
    [(str "foo", str "1.1-1")]
    [⟨str "foo", str "1.0", str "1", str "1.1", str "1"⟩]
    [⟨str "foo", str "1.0", str "1", str "1.1", str "1"⟩]
    (by decide) (by decide)).1

end Spec2Proof
